import Mathlib

/-!
# Verification of the task-centralization meeting-sync pipeline

A shallow embedding of the Python sources of the repository
(`src/credential_manager.py`, `src/sync_state.py`, `src/granola_fetcher.py`,
`src/format_converter.py`, `src/processor.py`, `scripts/granola_sync.py`,
`scripts/health_check.py`, `scripts/weekly_validation.py`) together with
theorems settling the frozen claims C1-C10.

Conventions used throughout the embedding:
* Python `None` / missing dict keys are modelled with `Option`;
  Python falsiness of `None` and the empty string is modelled explicitly.
* Code that can raise an exception visible to its caller returns
  `Except PyError _`; code whose exceptions are swallowed internally
  returns plain values or `Option`.
* The filesystem (state files, vault notes) is threaded as explicit state;
  external effects (the HTTP API, the filesystem write of a vault note,
  timestamp parsing) are oracle parameters of the functions that use them.
* Machine floats appearing in the Python (`coverage_percentage`) are
  modelled as exact rationals `ℚ`.
-/

/-- Python exception kinds that are distinguishable in the modelled code. -/
inductive PyError where
  | attributeError
  | typeError
  | valueError
  deriving DecidableEq, Repr

/-! ## Credential store (`src/credential_manager.py`) -/

namespace CredMgr

/-- The `granola` section of the credential bundle (`credentials.json`).
`access_token` is `none` when the key is absent; the empty string is a
present-but-falsy value, exactly as in the Python dict. -/
structure GranolaSection where
  access_token : Option String
  deriving DecidableEq, Repr

/-- The `llm` section of the credential bundle. -/
structure LlmSection where
  provider : Option String
  api_key : Option String
  model : Option String
  deriving DecidableEq, Repr

/-- The credential bundle held by `CredentialManager.credentials`:
each section is `none` when its top-level key is absent. Only the
sections read by the modelled code paths are carried. -/
structure Creds where
  granola : Option GranolaSection
  llm : Option LlmSection
  deriving DecidableEq, Repr

/-- Result of `CredentialManager.get_llm_credentials`. -/
structure LlmCreds where
  provider : String
  api_key : String
  model : String
  deriving DecidableEq, Repr

/-- Embeds `CredentialManager.get_granola_token` (credential_manager.py:101-121):
`None` when the `granola` section is absent or its `access_token` is
absent or empty (Python truthiness check `if not access_token`). -/
def get_granola_token (c : Creds) : Option String :=
  match c.granola with
  | Option.none => Option.none
  | Option.some g =>
    match g.access_token with
    | Option.none => Option.none
    | Option.some t => if t = "" then Option.none else Option.some t

/-- Embeds `CredentialManager.get_llm_credentials` (credential_manager.py:152-177):
`None` when the `llm` section is absent or `api_key` is absent/empty;
otherwise provider defaults to `"claude"` and model to
`"claude-3-5-sonnet-20241022"`. -/
def get_llm_credentials (c : Creds) : Option LlmCreds :=
  match c.llm with
  | Option.none => Option.none
  | Option.some s =>
    let provider := s.provider.getD "claude"
    let model := s.model.getD "claude-3-5-sonnet-20241022"
    match s.api_key with
    | Option.none => Option.none
    | Option.some k =>
      if k = "" then Option.none else Option.some ⟨provider, k, model⟩

/-- The public attribute names defined by `class CredentialManager`
(credential_manager.py:17-233), transcribed from the source: there is a
`get_llm_credentials` method but no `get_llm_config` method. -/
def methodNames : List String :=
  ["__init__", "_load_credentials", "_load_from_granola_app",
   "get_granola_token", "get_notion_credentials", "get_llm_credentials",
   "get_user_info", "get_vault_path", "save_credentials",
   "refresh_granola_token"]

/-- Python attribute lookup `self.cred_manager.get_llm_config()`
(called at processor.py:42 and health_check.py:90): since
`CredentialManager` defines no attribute named `get_llm_config`
(see `methodNames`), the lookup raises `AttributeError` before any call
happens. Were the attribute defined, the call would return the bundle's
LLM credentials; the dead branch records that reading. -/
def get_llm_config (c : Creds) : Except PyError (Option LlmCreds) :=
  if "get_llm_config" ∈ methodNames then
    Except.ok (get_llm_credentials c)
  else
    Except.error PyError.attributeError

end CredMgr

/-! ## Schema-validated LLM engine (`src/llm_parser_perplexity.py`) -/

/-- The LLM engine object built by `LLMParser.__init__`
(llm_parser_perplexity.py:24-42): it stores the API key and the fixed
model string `"sonar-pro"`. -/
structure LLMParser where
  api_key : String
  model : String
  deriving DecidableEq, Repr

/-- Embeds `LLMParser.__init__(api_key=None)` (llm_parser_perplexity.py:24-42):
`api_key or os.getenv('PERPLEXITY_API_KEY')` with Python truthiness
(`None` and `""` fall through to the environment variable), raising
`ValueError` when the result is falsy. -/
def LLMParser.init (api_key : Option String) (env_key : Option String) :
    Except PyError LLMParser :=
  let k : Option String :=
    match api_key with
    | Option.none => env_key
    | Option.some s => if s = "" then env_key else Option.some s
  match k with
  | Option.none => Except.error PyError.valueError
  | Option.some s =>
    if s = "" then Except.error PyError.valueError
    else Except.ok ⟨s, "sonar-pro"⟩

/-- The parameter names accepted by `LLMParser.__init__`
(llm_parser_perplexity.py:24): only `self` and `api_key`. -/
def LLMParser.initParams : List String := ["self", "api_key"]

/-- The call `LLMParser(api_key=api_key, model=model)` written at
processor.py:46: `__init__` accepts no `model` keyword (see
`LLMParser.initParams`), so Python would raise `TypeError` for the
unexpected keyword argument before the body of `__init__` runs. -/
def LLMParser.callWithModelArg (api_key : Option String) (env_key : Option String)
    (model : String) : Except PyError LLMParser :=
  if "model" ∈ LLMParser.initParams then
    (LLMParser.init api_key env_key).map (fun p => { p with model := model })
  else
    Except.error PyError.typeError

/-! ## Pipeline orchestrator construction (`src/processor.py`, `__init__`) -/

namespace Processor

/-- Body of the `try:` block at processor.py:38-53 that builds the LLM
engine: `llm_config = self.cred_manager.get_llm_config()` (raises
`AttributeError`, see `CredMgr.get_llm_config`); then, had it returned,
a truthy config leads to `LLMParser(api_key=..., model=...)` (a
`TypeError`, see `LLMParser.callWithModelArg`) and a falsy one to
`LLMParser()` with the environment fallback. -/
def tryInitLlm (c : CredMgr.Creds) (env_key : Option String) :
    Except PyError LLMParser := do
  let llm_config ← CredMgr.get_llm_config c
  match llm_config with
  | Option.some cfg =>
    -- api_key = llm_config.get("api_key"); model = llm_config.get("model", "sonar-pro")
    LLMParser.callWithModelArg (Option.some cfg.api_key) env_key cfg.model
  | Option.none => LLMParser.init Option.none env_key

/-- Embeds `GranolaProcessor.__init__` (processor.py:23-59), restricted to the
`llm_parser` field it establishes: `None` unless `enable_llm` and the
`try:` block succeeds; any exception in the block is caught
(processor.py:54-57) and leaves the field `None`. -/
def initLlmParser (enable_llm : Bool) (c : CredMgr.Creds) (env_key : Option String) :
    Option LLMParser :=
  if enable_llm then
    match tryInitLlm c env_key with
    | Except.ok p => Option.some p
    | Except.error _ => Option.none
  else Option.none

end Processor

/-! ## Health checker credentials check (`scripts/health_check.py`) -/

namespace HealthCheck

/-- The accumulating `issues` / `warnings` / `metrics` fields of
`HealthChecker` (health_check.py:38-40); metrics are key/value pairs. -/
structure HealthSt where
  issues : List String
  warnings : List String
  metrics : List (String × String)
  deriving DecidableEq, Repr

/-- Embeds `HealthChecker.check_credentials` (health_check.py:78-101).
`vault_path_exists` models `self.vault_path.exists()`. The method body
has no `try`/`except`, so the `AttributeError` raised by the
`get_llm_config` attribute lookup at line 90 escapes the check; the
lines after it (91-101) are transcribed and reached only if that lookup
were to succeed. -/
def check_credentials (c : CredMgr.Creds) (vault_path_exists : Bool)
    (vault_path : String) (st : HealthSt) : Except PyError HealthSt := do
  -- lines 83-87: Granola token
  let st :=
    match CredMgr.get_granola_token c with
    | Option.none =>
      { st with issues := st.issues ++ ["Granola credentials missing or invalid"] }
    | Option.some _ =>
      { st with metrics := st.metrics ++ [("granola_credentials", "configured")] }
  -- line 90: llm_config = self.cred_manager.get_llm_config()
  let llm_config ← CredMgr.get_llm_config c
  -- lines 91-95
  let st :=
    match llm_config with
    | Option.some cfg =>
      { st with metrics := st.metrics ++
          [("llm_provider", cfg.provider), ("llm_model", cfg.model)] }
    | Option.none =>
      { st with warnings := st.warnings ++
          ["LLM credentials not configured (enrichment disabled)"] }
  -- lines 98-101
  let st :=
    if vault_path_exists then
      { st with metrics := st.metrics ++ [("vault_path", vault_path)] }
    else
      { st with issues := st.issues ++ ["Vault path does not exist: " ++ vault_path] }
  return st

end HealthCheck

/-! ## Sync state tracker (`src/sync_state.py`) -/

namespace SyncState

/-- The JSON payload written by `SyncStateManager._save_state`
(sync_state.py:71-91) and read back by `_load_state`. The `updated_at`
timestamp field is bookkeeping only and is not carried. -/
structure SyncData where
  processed_ids : List String
  last_pruned : Option String
  total_processed : Nat
  deriving DecidableEq, Repr

/-- The in-memory `self.state` dictionary (sync_state.py:49-53,65-69);
`processed_ids` is a Python `set`, modelled as a duplicate-free-by-use
list manipulated only through membership-guarded inserts. -/
structure St where
  processed_ids : List String
  last_pruned : Option String
  total_processed : Nat
  deriving DecidableEq, Repr

/-- The state file on disk: `none` when the file is absent or its JSON
fails to decode (an empty file is undecodable JSON, sync_state.py:58-61). -/
abbrev FileStore := Option SyncData

/-- Embeds `SyncStateManager._load_state` (sync_state.py:34-69): a readable file
yields `set(data.get("processed_ids", []))` (`List.dedup` models the set
conversion); an absent or unreadable file yields the empty state. -/
def _load_state (file : FileStore) : St :=
  match file with
  | Option.some d =>
    ⟨d.processed_ids.dedup, d.last_pruned, d.total_processed⟩
  | Option.none => ⟨[], Option.none, 0⟩

/-- Embeds `SyncStateManager._save_state` (sync_state.py:71-91): serialises
`sorted(self.state["processed_ids"])` together with the metadata. -/
def _save_state (s : St) : SyncData :=
  ⟨s.processed_ids.mergeSort (· ≤ ·), s.last_pruned, s.total_processed⟩

/-- Embeds `SyncStateManager.is_processed` (sync_state.py:93-103). -/
def is_processed (s : St) (granola_id : String) : Bool :=
  granola_id ∈ s.processed_ids

/-- Embeds `SyncStateManager.mark_processed` (sync_state.py:105-116): adds the
id to the set, bumps the counter and saves, only when the id is new. -/
def mark_processed (s : St) (file : FileStore) (granola_id : String) :
    St × FileStore :=
  if granola_id ∈ s.processed_ids then (s, file)
  else
    let s1 : St :=
      { s with
        processed_ids := granola_id :: s.processed_ids
        total_processed := s.total_processed + 1 }
    (s1, Option.some (_save_state s1))

/-- Embeds `SyncStateManager.mark_batch_processed` (sync_state.py:118-131):
filters out already-present ids, and updates the set, the counter and
the file only when something new remains. -/
def mark_batch_processed (s : St) (file : FileStore) (granola_ids : List String) :
    St × FileStore :=
  let new_ids := granola_ids.filter (fun gid => gid ∉ s.processed_ids)
  if new_ids = [] then (s, file)
  else
    let s1 : St :=
      { s with
        processed_ids := new_ids.foldl (fun acc gid => gid :: acc) s.processed_ids
        total_processed := s.total_processed + new_ids.length }
    (s1, Option.some (_save_state s1))

/-- A marking operation performed on a tracker: one id
(`mark_processed`) or a batch (`mark_batch_processed`). -/
inductive Op where
  | one (granola_id : String)
  | batch (granola_ids : List String)
  deriving DecidableEq, Repr

/-- Run one marking operation against the tracker and its backing file. -/
def applyOp (sf : St × FileStore) (op : Op) : St × FileStore :=
  match op with
  | Op.one gid => mark_processed sf.1 sf.2 gid
  | Op.batch gids => mark_batch_processed sf.1 sf.2 gids

/-- Run a sequence of marking operations. -/
def applyOps (sf : St × FileStore) (ops : List Op) : St × FileStore :=
  ops.foldl applyOp sf

/-- The multiset of ids a sequence of operations asks to mark. -/
def idsOf (ops : List Op) : List String :=
  ops.foldr (fun op acc =>
    match op with
    | Op.one gid => gid :: acc
    | Op.batch gids => gids ++ acc) []

end SyncState

/-! ## Meeting-API client (`src/granola_fetcher.py`) -/

namespace Fetcher

/-- A meeting document as consumed by the orchestrator: `doc.get("id",
"unknown")` is modelled by an always-present id (the API's unit of
record carries an identifier), `valid_meeting` is `none` when the key is
absent. -/
structure Doc where
  id : String
  title : String
  valid_meeting : Option Bool
  deriving DecidableEq, Repr

/-- Timestamps compared and stored by the fetcher, as an abstract
integer clock (seconds). -/
abbrev Time := Int

/-- Embeds `GranolaFetcher._load_last_check` (granola_fetcher.py:128-148): the
sentinel file's parsed timestamp when present and parseable, else
`now - 7 days` (first-run behaviour). The sentinel store is kept as the
already-parsed `Option Time`; an unparseable file is `none`. -/
def _load_last_check (now : Time) (sentinel : Option Time) : Time :=
  match sentinel with
  | Option.some t => t
  | Option.none => now - 7 * 24 * 60 * 60

/-- Embeds `GranolaFetcher._update_last_check` (granola_fetcher.py:150-160):
overwrite the sentinel file with the current timestamp. -/
def _update_last_check (now : Time) (_sentinel : Option Time) : Option Time :=
  Option.some now

/-- Embeds `GranolaFetcher.fetch_new_documents` (granola_fetcher.py:109-126).
`api` is the oracle for `fetch_documents(created_after=last_check)`
(granola_fetcher.py:45-107): `none` models every failure path (timeout,
HTTP error, network error, JSON decode error), `some docs` a response
(the missing-`docs`-key case returns `some []`). Returns the fetch
result paired with the sentinel file afterwards. -/
def fetch_new_documents (api : Time → Option (List Doc)) (now : Time)
    (sentinel : Option Time) : Option (List Doc) × Option Time :=
  let last_check := _load_last_check now sentinel
  match api last_check with
  | Option.some documents => (Option.some documents, _update_last_check now sentinel)
  | Option.none => (Option.none, sentinel)

end Fetcher

/-! ## Orchestrator run (`src/processor.py`, `process_new_meetings`)
     and sync entry point (`scripts/granola_sync.py`) -/

namespace Processor

/-- The `results` dictionary of `process_new_meetings`
(processor.py:70-78), plus an instrumentation counter
`llm_enrichments` counting how many times the enrichment step at
processor.py:129-135 was entered (the code path that logs
"Enriched with LLM parsing" or its caught failure). -/
structure Results where
  timestamp : String
  fetched : Nat
  processed : Nat
  failed : Nat
  skipped : Nat
  notes_created : List String
  errors : List String
  llm_enrichments : Nat
  deriving DecidableEq, Repr

/-- The fresh `results` dictionary built at processor.py:70-78. -/
def Results.init (now : String) : Results :=
  ⟨now, 0, 0, 0, 0, [], [], 0⟩

/-- The loop body at processor.py:104-146 for one fetched document.
`writer` is the oracle for `ObsidianWriter.write_meeting_note`
(obsidian_writer.py:40-81): `some path` on success, `none` when the
writer swallowed an exception and returned `None`. The sync state and
its backing file are threaded through. -/
def processDoc (writer : Fetcher.Doc → Option String) (llm : Option LLMParser)
    (acc : SyncState.St × SyncState.FileStore × Results) (doc : Fetcher.Doc) :
    SyncState.St × SyncState.FileStore × Results :=
  let (state, file, r) := acc
  -- processor.py:106-109: skip if already processed
  if SyncState.is_processed state doc.id then
    (state, file, { r with skipped := r.skipped + 1 })
  -- processor.py:112-115: skip if not doc.get("valid_meeting", True)
  else if doc.valid_meeting.getD true = false then
    (state, file, { r with skipped := r.skipped + 1 })
  else
    -- processor.py:118: filepath = self.writer.write_meeting_note(doc)
    match writer doc with
    | Option.some filepath =>
      let r :=
        { r with
          processed := r.processed + 1
          notes_created := r.notes_created ++ [filepath] }
      -- processor.py:126: mark as processed
      let (state, file) := SyncState.mark_processed state file doc.id
      -- processor.py:129-135: enrichment attempt, failures only logged
      let r :=
        if (llm.isSome : Bool) then
          { r with llm_enrichments := r.llm_enrichments + 1 }
        else r
      (state, file, r)
    | Option.none =>
      (state, file,
        { r with
          failed := r.failed + 1
          errors := r.errors ++ ["Failed to write note for " ++ doc.id] })

/-- Embeds `GranolaProcessor.process_new_meetings` (processor.py:61-157).
`fetch` is the result of `self.fetcher.fetch_new_documents()`: `none`
models the failure return, `some docs` a fetched list. Returns the
final sync state, state file and results dictionary. -/
def process_new_meetings (fetch : Option (List Fetcher.Doc))
    (writer : Fetcher.Doc → Option String) (llm : Option LLMParser)
    (state : SyncState.St) (file : SyncState.FileStore) (now : String) :
    SyncState.St × SyncState.FileStore × Results :=
  let results := Results.init now
  match fetch with
  | Option.none =>
    -- processor.py:85-88: record the single error and return early
    (state, file, { results with errors := results.errors ++ ["API fetch failed"] })
  | Option.some documents =>
    let results := { results with fetched := documents.length }
    -- processor.py:93-95: zero documents return early with the same results
    documents.foldl (processDoc writer llm) (state, file, results)

end Processor

namespace GranolaSync

/-- The status dictionary written by `write_sync_status`
(granola_sync.py:55-70). -/
structure SyncStatus where
  last_run : String
  fetched : Nat
  processed : Nat
  failed : Nat
  status : String
  errors : List String
  deriving DecidableEq, Repr

/-- Embeds `write_sync_status` (granola_sync.py:55-70): the `status` field is
`"success"` exactly when `results["failed"] == 0`. -/
def write_sync_status (r : Processor.Results) : SyncStatus :=
  ⟨r.timestamp, r.fetched, r.processed, r.failed,
    if r.failed = 0 then "success" else "partial_failure", r.errors⟩

/-- The exit code chosen by `main` (granola_sync.py:106-110) on the
non-fatal path: 1 when `results["failed"] > 0`, else 0. -/
def mainExitCode (r : Processor.Results) : Nat :=
  if r.failed > 0 then 1 else 0

end GranolaSync

/-! ## Rich-text converter (`src/format_converter.py`) -/

namespace ProseMirror

/-- One entry of a text node's `marks` array: the mark's `type` key and
its `attrs.href` (flattened; `none` when `attrs` or `href` is absent,
matching `mark.get("attrs", {}).get("href", "")` with its default). -/
structure PMMark where
  ty : Option String
  href : Option String
  deriving DecidableEq, Repr

/-- A ProseMirror node (a JSON dict), flattened to the keys the
converter reads: `type`, `text`, `marks`, `attrs.level`,
`attrs.language`, `content`. An absent `content` key is modelled as the
empty list: in `_extract_text` the only place key-presence is tested
(`elif "content" in node`, format_converter.py:247), recursing into an
empty list contributes `""` exactly as not recursing does. -/
inductive PMNode : Type where
  | mk (ty : Option String) (txt : Option String) (marks : List PMMark)
      (level : Option Nat) (language : Option String) (content : List PMNode)
  deriving Repr

/-- The node's `type` key. -/
def PMNode.ty : PMNode → Option String
  | PMNode.mk t _ _ _ _ _ => t

/-- The node's `content` array (empty when absent). -/
def PMNode.content : PMNode → List PMNode
  | PMNode.mk _ _ _ _ _ c => c

/-- The mark application switch inside `_extract_text`
(format_converter.py:224-237): each recognised mark type wraps the text
accumulated so far; unrecognised mark types leave it unchanged. -/
def applyMark (text : String) (mark : PMMark) : String :=
  match mark.ty with
  | Option.some "bold" => "**" ++ text ++ "**"
  | Option.some "italic" => "*" ++ text ++ "*"
  | Option.some "code" => "`" ++ text ++ "`"
  | Option.some "strike" => "~~" ++ text ++ "~~"
  | Option.some "link" => "[" ++ text ++ "](" ++ mark.href.getD "" ++ ")"
  | _ => text

/-- Embeds `ProseMirrorConverter._extract_text` (format_converter.py:200-252):
concatenates text leaves with their marks applied in the order the
`marks` array lists them (a Python `for mark in marks` loop over the
array), renders `hardBreak` as a newline or a space depending on
`preserve_newlines`, and recurses into nested `content`. -/
def extractText (preserve_newlines : Bool) : List PMNode → String
  | [] => ""
  | PMNode.mk ty txt marks _ _ content :: rest =>
    let part :=
      if ty = Option.some "text" then
        marks.foldl applyMark (txt.getD "")
      else if ty = Option.some "hardBreak" then
        if preserve_newlines then "\n" else " "
      else
        extractText preserve_newlines content
    part ++ extractText preserve_newlines rest

/-- Python whitespace for `str.strip()` (the ASCII whitespace class;
the modelled strings carry no other Unicode whitespace). -/
def isPySpace (c : Char) : Bool :=
  c = ' ' || c = '\t' || c = '\n' || c = '\r' || c = '\x0b' || c = '\x0c'

/-- One pass of `markdown.replace("\n\n\n", "\n\n")`
(format_converter.py:61): replaces non-overlapping occurrences left to
right, continuing after each replacement. -/
def replaceTriple : List Char → List Char
  | [] => []
  | [c1] => [c1]
  | [c1, c2] => [c1, c2]
  | c1 :: c2 :: c3 :: rest =>
    if c1 = '\n' ∧ c2 = '\n' ∧ c3 = '\n' then '\n' :: '\n' :: replaceTriple rest
    else c1 :: replaceTriple (c2 :: c3 :: rest)

/-- The loop guard `"\n\n\n" in markdown` (format_converter.py:60):
whether three consecutive newlines occur. -/
def containsTriple : List Char → Bool
  | [] => false
  | [_] => false
  | [_, _] => false
  | c1 :: c2 :: c3 :: rest =>
    if c1 = '\n' ∧ c2 = '\n' ∧ c3 = '\n' then true
    else containsTriple (c2 :: c3 :: rest)

/-- The `while "\n\n\n" in markdown:` loop of `convert`
(format_converter.py:60-61): repeat the replacement pass until no
occurrence remains; each pass on a string that still contains an
occurrence strictly shortens it, so the loop terminates. -/
def collapseNewlines (l : List Char) : List Char :=
  if h : containsTriple l = true then collapseNewlines (replaceTriple l) else l
termination_by l.length
decreasing_by
  have hle : ∀ m : List Char, (replaceTriple m).length ≤ m.length := by
    intro m
    induction m using replaceTriple.induct with
    | case1 => simp [replaceTriple]
    | case2 => simp [replaceTriple]
    | case3 => simp [replaceTriple]
    | case4 c1 c2 c3 rest h3 ih =>
      simp only [replaceTriple, if_pos h3]; simp; omega
    | case5 c1 c2 c3 rest h3 ih =>
      simp only [replaceTriple, if_neg h3]; simp at ih ⊢; omega
  have hlt : ∀ m : List Char, containsTriple m = true →
      (replaceTriple m).length < m.length := by
    intro m
    induction m using replaceTriple.induct with
    | case1 => simp [containsTriple]
    | case2 => simp [containsTriple]
    | case3 => simp [containsTriple]
    | case4 c1 c2 c3 rest h3 ih =>
      intro _
      simp only [replaceTriple, if_pos h3]
      have := hle rest
      simp; omega
    | case5 c1 c2 c3 rest h3 ih =>
      intro hc
      simp only [containsTriple, if_neg h3] at hc
      simp only [replaceTriple, if_neg h3]
      have := ih hc
      simp at this ⊢; omega
  exact hlt l h

/-- Embeds `str.strip()` on the final markdown (format_converter.py:63):
drop whitespace from both ends. -/
def stripChars (l : List Char) : List Char :=
  (((l.dropWhile isPySpace).reverse.dropWhile isPySpace)).reverse

/-- Embeds `text.strip()` truthiness tests inside the converter
(format_converter.py:96,112): the stripped string, as a `String`. -/
def stripString (s : String) : String :=
  String.mk (stripChars s.data)

/-- Python `s * n` for strings: `n` copies concatenated. -/
def strRepeat (s : String) (n : Nat) : String :=
  String.join (List.replicate n s)

/-- The mutable converter state: `self.output_lines` and
`self.list_depth` (format_converter.py:27-29), threaded explicitly. -/
structure Conv where
  output_lines : List String
  list_depth : Nat
  deriving DecidableEq, Repr

/-- Embeds `self.output_lines.append(line)`. -/
def pushLine (c : Conv) (line : String) : Conv :=
  { c with output_lines := c.output_lines ++ [line] }

/-- Embeds `ProseMirrorConverter._convert_heading` (format_converter.py:99-106). -/
def convertHeading (c : Conv) (level : Option Nat) (content : List PMNode) : Conv :=
  let lv := level.getD 1
  let text := extractText false content
  pushLine (pushLine c (strRepeat "#" lv ++ " " ++ text)) ""

/-- Embeds `ProseMirrorConverter._convert_paragraph` (format_converter.py:108-119). -/
def convertParagraph (c : Conv) (content : List PMNode) (in_list_item : Bool) : Conv :=
  let text := extractText false content
  if stripString text ≠ "" then
    if in_list_item then
      pushLine c (strRepeat "  " c.list_depth ++ text)
    else
      pushLine (pushLine c text) ""
  else c

/-- Embeds `ProseMirrorConverter._convert_code_block` (format_converter.py:172-180). -/
def convertCodeBlock (c : Conv) (language : Option String) (content : List PMNode) : Conv :=
  let lang := language.getD ""
  let text := extractText true content
  pushLine (pushLine (pushLine (pushLine c ("```" ++ lang)) text) "```") ""

/-- The quote-marker loop of `_convert_blockquote`
(format_converter.py:192-196): prefix non-blank lines with `"> "` and
blank lines with `">"`. -/
def quoteLines (c : Conv) (lines : List String) : Conv :=
  lines.foldl
    (fun acc line =>
      if stripString line ≠ "" then pushLine acc ("> " ++ line)
      else pushLine acc ">") c

mutual

/-- Embeds `ProseMirrorConverter._convert_node` (format_converter.py:65-97):
dispatch on the node's `type`, falling back to best-effort text
extraction for unhandled types. The blockquote branch
(format_converter.py:182-198) converts the children with a fresh
converter instance (`list_depth` 0, empty `output_lines`) and prefixes
the resulting lines. -/
def convertNode (c : Conv) (n : PMNode) (in_list_item : Bool) : Conv :=
  match n with
  | PMNode.mk ty _ _ level language content =>
    if ty = Option.some "heading" then
      convertHeading c level content
    else if ty = Option.some "paragraph" then
      convertParagraph c content in_list_item
    else if ty = Option.some "bulletList" then
      -- format_converter.py:121-132
      let c1 := { c with list_depth := c.list_depth + 1 }
      let c2 := convertBulletItems c1 content
      let c3 := { c2 with list_depth := c2.list_depth - 1 }
      if c3.list_depth = 0 then pushLine c3 "" else c3
    else if ty = Option.some "orderedList" then
      -- format_converter.py:134-145
      let c1 := { c with list_depth := c.list_depth + 1 }
      let c2 := convertOrderedItems c1 content 1
      let c3 := { c2 with list_depth := c2.list_depth - 1 }
      if c3.list_depth = 0 then pushLine c3 "" else c3
    else if ty = Option.some "codeBlock" then
      convertCodeBlock c language content
    else if ty = Option.some "blockquote" then
      let temp := convertNodes ⟨[], 0⟩ content
      pushLine (quoteLines c temp.output_lines) ""
    else if ty = Option.some "horizontalRule" then
      pushLine (pushLine c "---") ""
    else if ty = Option.some "hardBreak" then
      pushLine c ""
    else
      let text := extractText false content
      if stripString text ≠ "" then pushLine c text else c
termination_by sizeOf n

/-- The `for item in node.get("content", [])` loop of
`_convert_bullet_list` (format_converter.py:125-127): only `listItem`
children are converted. -/
def convertBulletItems (c : Conv) (ns : List PMNode) : Conv :=
  match ns with
  | [] => c
  | item :: rest =>
    let c1 := if item.ty = Option.some "listItem" then convertListItem c item "-" else c
    convertBulletItems c1 rest
termination_by sizeOf ns

/-- The `for i, item in enumerate(node.get("content", []), 1)` loop of
`_convert_ordered_list` (format_converter.py:138-140): the index
advances for every child, but only `listItem` children are converted. -/
def convertOrderedItems (c : Conv) (ns : List PMNode) (i : Nat) : Conv :=
  match ns with
  | [] => c
  | item :: rest =>
    let c1 :=
      if item.ty = Option.some "listItem" then
        convertListItem c item (toString i ++ ".")
      else c
    convertOrderedItems c1 rest (i + 1)
termination_by sizeOf ns

/-- Embeds `ProseMirrorConverter._convert_list_item` (format_converter.py:147-170). -/
def convertListItem (c : Conv) (n : PMNode) (bullet : String) : Conv :=
  let indent := strRepeat "  " (c.list_depth - 1)
  match n with
  | PMNode.mk _ _ _ _ _ content =>
    match content with
    | [] => c
    | first :: rest =>
      if first.ty = Option.some "paragraph" then
        let text := extractText false first.content
        let c1 := pushLine c (indent ++ bullet ++ " " ++ text)
        convertItemRest c1 rest
      else
        convertNode c first false
termination_by sizeOf n

/-- The `for additional_node in content_nodes[1:]` loop of
`_convert_list_item` (format_converter.py:163-167). -/
def convertItemRest (c : Conv) (ns : List PMNode) : Conv :=
  match ns with
  | [] => c
  | additional :: rest =>
    let c1 :=
      if additional.ty = Option.some "paragraph" then
        convertParagraph c additional.content true
      else if additional.ty = Option.some "bulletList" ∨
          additional.ty = Option.some "orderedList" then
        convertNode c additional false
      else c
    convertItemRest c1 rest
termination_by sizeOf ns

/-- The `for node in content` loops over a `content` array
(format_converter.py:53-54 and 188-189). -/
def convertNodes (c : Conv) (ns : List PMNode) : Conv :=
  match ns with
  | [] => c
  | n :: rest => convertNodes (convertNode c n false) rest
termination_by sizeOf ns

end

/-- Embeds `ProseMirrorConverter.convert` (format_converter.py:31-63): convert
every node of the root's `content`, join the collected lines with
newlines, collapse runs of three or more newlines to two, and strip the
result. The Python guards for a non-dict input (returns `""`) and for a
root `type` other than `"doc"` (logs a warning and proceeds with the
same `content` traversal) do not alter the result for dict inputs, which
is what `PMNode` models. -/
def convert (d : PMNode) : String :=
  match d with
  | PMNode.mk _ _ _ _ _ content =>
    let c := convertNodes ⟨[], 0⟩ content
    let markdown := String.intercalate "\n" c.output_lines
    String.mk (stripChars (collapseNewlines markdown.data))

end ProseMirror

/-! ## Weekly validator (`scripts/weekly_validation.py`) -/

namespace WeeklyValidation

/-- A fetched document as read by the weekly validator: `id` (the API's
unit of record always carries one), and the `title` / `created_at` /
`valid_meeting` keys, `none` when absent. -/
structure VDoc where
  id : String
  title : Option String
  created_at : Option String
  valid_meeting : Option Bool
  deriving DecidableEq, Repr

/-- The per-document body of the window filter in
`_fetch_granola_meetings` (weekly_validation.py:149-159): a falsy
`created_at` (absent key or empty string) silently keeps the document
out of the result; a truthy one is parsed (`parse` is the oracle for
`datetime.fromisoformat` on the `Z`-normalised string, `none` on a parse
error), and the document is kept when the parsed time is at or after the
cutoff, or — via the `except` branch — whenever parsing fails. -/
def keepDoc (parse : String → Option Int) (cutoff : Int) (d : VDoc) : Bool :=
  match d.created_at with
  | Option.none => false
  | Option.some s =>
    if s = "" then false
    else
      match parse s with
      | Option.some t => decide (cutoff ≤ t)
      | Option.none => true

/-- Embeds `WeeklyValidator._fetch_granola_meetings` (weekly_validation.py:121-166):
a failed underlying fetch yields `[]` (likewise the outer `except`), a
successful one is filtered through `keepDoc` in order. -/
def fetch_granola_meetings (fetchRes : Option (List VDoc))
    (parse : String → Option Int) (cutoff : Int) : List VDoc :=
  match fetchRes with
  | Option.none => []
  | Option.some docs => docs.filter (keepDoc parse cutoff)

/-- Embeds `WeeklyValidator._meeting_in_obsidian` (weekly_validation.py:200-220):
the id occurs as a substring of some candidate file's text. `files`
carries the readable candidate files' contents (a file whose read
raises is skipped by the `except`, i.e. simply not in the list). -/
def meeting_in_obsidian (granola_id : String) (files : List String) : Bool :=
  files.any (fun content => decide (granola_id.data <:+: content.data))

/-- One entry of the `missing_meetings` list (weekly_validation.py:80-86). -/
structure MissingEntry where
  id : String
  title : String
  created_at : String
  deriving DecidableEq, Repr

/-- The `self.stats` dictionary as populated by a successful
`validate_week` run (weekly_validation.py:37-43, 90-98);
`coverage_percentage` (a Python float) is modelled as an exact `ℚ`. -/
structure VStats where
  total_granola_meetings : Nat
  captured_in_obsidian : Nat
  missing_meetings : List MissingEntry
  invalid_meetings_skipped : Nat
  coverage_percentage : ℚ
  deriving DecidableEq, Repr

/-- The body of the `for meeting in granola_meetings` loop
(weekly_validation.py:72-86), accumulating
`(invalid_count, valid_count, missing)`. -/
def validateStep (files : List String) (acc : Nat × Nat × List MissingEntry)
    (meeting : VDoc) : Nat × Nat × List MissingEntry :=
  let (invalid, valid, missing) := acc
  if meeting.valid_meeting.getD true = false then
    (invalid + 1, valid, missing)
  else if meeting_in_obsidian meeting.id files then
    (invalid, valid + 1, missing)
  else
    (invalid, valid + 1,
      missing ++ [⟨meeting.id, meeting.title.getD "Untitled",
        meeting.created_at.getD "unknown"⟩])

/-- Embeds `WeeklyValidator.validate_week` (weekly_validation.py:49-108), the
non-exceptional path, as a function of the fetched in-window documents
and the candidate vault files' contents: counts invalid documents,
collects the uncaptured valid ones as `missing`, sets
`captured = valid_count - len(missing)` (weekly_validation.py:88) and
computes the coverage percentage only when `valid_count > 0`
(weekly_validation.py:96-98), leaving the initialised `0.0` otherwise. -/
def validate_week (granola_meetings : List VDoc) (files : List String) : VStats :=
  let loop := granola_meetings.foldl (validateStep files) (0, 0, [])
  let invalid_count := loop.1
  let valid_count := loop.2.1
  let missing := loop.2.2
  let captured_count := valid_count - missing.length
  let coverage : ℚ :=
    if valid_count > 0 then ((captured_count : ℚ) / (valid_count : ℚ)) * 100 else 0
  ⟨granola_meetings.length, captured_count, missing, invalid_count, coverage⟩

end WeeklyValidation

/-! ## Shared lemmas -/

/-- The class `CredentialManager` defines no `get_llm_config` attribute, so the
modelled attribute lookup raises `AttributeError` for every bundle. -/
theorem get_llm_config_raises (c : CredMgr.Creds) :
    CredMgr.get_llm_config c = Except.error PyError.attributeError := by
  unfold CredMgr.get_llm_config
  rw [if_neg]
  decide

/-- A run of the per-document loop with no LLM engine never increments
the enrichment counter. -/
theorem llm_enrichments_zero (writer : Fetcher.Doc → Option String)
    (docs : List Fetcher.Doc) :
    ∀ (state : SyncState.St) (file : SyncState.FileStore) (r : Processor.Results),
      r.llm_enrichments = 0 →
      (docs.foldl (Processor.processDoc writer Option.none)
        (state, file, r)).2.2.llm_enrichments = 0 := by
  induction docs with
  | nil => intro state file r h; simpa using h
  | cons d rest ih =>
    intro state file r h
    simp only [List.foldl_cons]
    unfold Processor.processDoc
    by_cases h1 : SyncState.is_processed state d.id
    · simp only [h1, if_true]
      exact ih _ _ _ (by simpa using h)
    · simp only [h1, if_false]
      by_cases h2 : d.valid_meeting.getD true = false
      · simp only [h2, if_true]
        exact ih _ _ _ (by simpa using h)
      · simp only [h2, if_false]
        cases hw : writer d with
        | none => exact ih _ _ _ (by simpa using h)
        | some fp => exact ih _ _ _ (by simpa using h)

/-! ## Claim theorems -/

/-- Claim C1: for every construction of the pipeline orchestrator with
LLM enrichment enabled, initialization of the LLM engine fails (the
credential store has no `get_llm_config` operation, so the lookup raises
`AttributeError`), the failure is caught, the orchestrator's LLM engine
remains unset (`None`), and consequently `process_new_meetings` never
performs the LLM enrichment step on any written note. -/
theorem C1_llm_init_fails_engine_unset_never_enriches :
    ∀ (c : CredMgr.Creds) (env_key : Option String)
      (fetch : Option (List Fetcher.Doc)) (writer : Fetcher.Doc → Option String)
      (state : SyncState.St) (file : SyncState.FileStore) (now : String),
      Processor.tryInitLlm c env_key = Except.error PyError.attributeError ∧
      Processor.initLlmParser true c env_key = Option.none ∧
      (Processor.process_new_meetings fetch writer
        (Processor.initLlmParser true c env_key)
        state file now).2.2.llm_enrichments = 0 := by
  intro c env_key fetch writer state file now
  have h1 : Processor.tryInitLlm c env_key = Except.error PyError.attributeError := by
    unfold Processor.tryInitLlm
    rw [get_llm_config_raises]
    rfl
  have h2 : Processor.initLlmParser true c env_key = Option.none := by
    unfold Processor.initLlmParser
    rw [h1]
    rfl
  refine ⟨h1, h2, ?_⟩
  rw [h2]
  unfold Processor.process_new_meetings
  cases fetch with
  | none => rfl
  | some documents => exact llm_enrichments_zero writer documents state file _ rfl

/-- Claim C2 (code bug): the health checker's credentials check is
specified to record the LLM provider/model as metrics when configured,
else a warning, without raising; but `check_credentials` calls the
nonexistent `CredentialManager.get_llm_config` with no surrounding
`try`/`except`, so every invocation raises `AttributeError` out of the
check, for every credential bundle and vault state. -/
theorem C2_check_credentials_always_raises :
    ∀ (c : CredMgr.Creds) (vault_path_exists : Bool) (vault_path : String)
      (st : HealthCheck.HealthSt),
      HealthCheck.check_credentials c vault_path_exists vault_path st =
        Except.error PyError.attributeError := by
  intro c vault_path_exists vault_path st
  unfold HealthCheck.check_credentials
  rw [get_llm_config_raises]
  rfl

/-- Claim C4: for every invocation of the incremental fetch
(`fetch_new_documents`), a fetch returning a list — including the empty
list — causes the last-sync sentinel file to be overwritten with the
current timestamp, while a failed fetch (no value) leaves the sentinel
file unchanged. -/
theorem C4_sentinel_watermark (api : Fetcher.Time → Option (List Fetcher.Doc))
    (now : Fetcher.Time) (sentinel : Option Fetcher.Time) :
    (Fetcher.fetch_new_documents api now sentinel).1 =
      api (Fetcher._load_last_check now sentinel) ∧
    (∀ docs, api (Fetcher._load_last_check now sentinel) = Option.some docs →
      (Fetcher.fetch_new_documents api now sentinel).2 = Option.some now) ∧
    (api (Fetcher._load_last_check now sentinel) = Option.none →
      (Fetcher.fetch_new_documents api now sentinel).2 = sentinel) := by
  unfold Fetcher.fetch_new_documents
  cases h : api (Fetcher._load_last_check now sentinel) with
  | none =>
    refine ⟨by simp [h], ?_, fun _ => by simp [h]⟩
    intro docs hd
    simp at hd
  | some docs =>
    refine ⟨by simp [h], ?_, ?_⟩
    · intro d hd
      simp [h, Fetcher._update_last_check]
    · intro hn
      simp at hn

/-- Witness for C4: an empty-list fetch result advances the sentinel to
the current time, and a failed fetch leaves it at its old value. -/
theorem C4_sentinel_watermark_witness :
    (Fetcher.fetch_new_documents (fun _ => Option.some []) 5 (Option.some 3)).2 =
      Option.some 5 ∧
    (Fetcher.fetch_new_documents (fun _ => Option.none) 5 (Option.some 3)).2 =
      Option.some 3 := by
  constructor
  · exact (C4_sentinel_watermark (fun _ => Option.some []) 5 (Option.some 3)).2.1 [] rfl
  · exact (C4_sentinel_watermark (fun _ => Option.none) 5 (Option.some 3)).2.2 rfl

/-- Claim C9: when the incremental fetch fails entirely,
`process_new_meetings` returns `failed = 0` with the failure recorded
only in `errors`, so the sync entry point writes a status file whose
`status` is `"success"` and exits with code 0 — by status field and
exit code indistinguishable from a fully successful run (exemplified by
a successful empty fetch). -/
theorem C9_fetch_failure_looks_like_success :
    ∀ (writer : Fetcher.Doc → Option String) (llm : Option LLMParser)
      (state : SyncState.St) (file : SyncState.FileStore) (now : String),
      (Processor.process_new_meetings Option.none writer llm state file now).2.2.failed
        = 0 ∧
      (Processor.process_new_meetings Option.none writer llm state file now).2.2.errors
        = ["API fetch failed"] ∧
      (GranolaSync.write_sync_status
        (Processor.process_new_meetings Option.none writer llm state file now).2.2).status
        = "success" ∧
      GranolaSync.mainExitCode
        (Processor.process_new_meetings Option.none writer llm state file now).2.2 = 0 ∧
      (GranolaSync.write_sync_status
        (Processor.process_new_meetings (Option.some []) writer llm state file now).2.2).status
        = "success" ∧
      GranolaSync.mainExitCode
        (Processor.process_new_meetings (Option.some []) writer llm state file now).2.2
        = 0 := by
  intro writer llm state file now
  exact ⟨rfl, rfl, rfl, rfl, rfl, rfl⟩

/-- Reloading a freshly saved state file recovers exactly the saved
membership (serialisation sorts, loading dedups; both preserve it). -/
theorem mem_load_save (s : SyncState.St) (x : String) :
    x ∈ (SyncState._load_state (Option.some (SyncState._save_state s))).processed_ids ↔
      x ∈ s.processed_ids := by
  simp [SyncState._load_state, SyncState._save_state, List.mem_dedup,
    List.mem_mergeSort]

/-- Membership through the set-update fold of `mark_batch_processed`. -/
theorem mem_foldl_cons (l : List String) :
    ∀ (acc : List String) (x : String),
      x ∈ l.foldl (fun a g => g :: a) acc ↔ x ∈ l ∨ x ∈ acc := by
  induction l with
  | nil => intro acc x; simp
  | cons g rest ih =>
    intro acc x
    rw [List.foldl_cons, ih]
    simp
    tauto

/-- One marking operation: the backing file keeps reflecting the
in-memory set, and the in-memory set grows by exactly the operation's
ids. -/
theorem applyOp_mem (op : SyncState.Op) (s : SyncState.St)
    (file : SyncState.FileStore)
    (hfile : ∀ x, x ∈ (SyncState._load_state file).processed_ids ↔
      x ∈ s.processed_ids) :
    (∀ x, x ∈ (SyncState._load_state (SyncState.applyOp (s, file) op).2).processed_ids ↔
      x ∈ (SyncState.applyOp (s, file) op).1.processed_ids) ∧
    (∀ x, x ∈ (SyncState.applyOp (s, file) op).1.processed_ids ↔
      x ∈ SyncState.idsOf [op] ∨ x ∈ s.processed_ids) := by
  cases op with
  | one gid =>
    by_cases hmem : gid ∈ s.processed_ids
    · have heq : SyncState.applyOp (s, file) (SyncState.Op.one gid) = (s, file) := by
        simp [SyncState.applyOp, SyncState.mark_processed, hmem]
      rw [heq]
      refine ⟨hfile, fun x => ?_⟩
      simp only [SyncState.idsOf, List.foldr]
      constructor
      · exact fun h => Or.inr h
      · rintro (h | h)
        · simp at h
          subst h
          exact hmem
        · exact h
    · have heq : SyncState.applyOp (s, file) (SyncState.Op.one gid) =
          (⟨gid :: s.processed_ids, s.last_pruned, s.total_processed + 1⟩,
            Option.some (SyncState._save_state
              ⟨gid :: s.processed_ids, s.last_pruned, s.total_processed + 1⟩)) := by
        simp [SyncState.applyOp, SyncState.mark_processed, hmem]
      rw [heq]
      refine ⟨fun x => mem_load_save _ x, fun x => ?_⟩
      simp [SyncState.idsOf]
  | batch gids =>
    by_cases hnil : gids.filter (fun gid => gid ∉ s.processed_ids) = []
    · have heq : SyncState.applyOp (s, file) (SyncState.Op.batch gids) = (s, file) := by
        simp only [SyncState.applyOp, SyncState.mark_batch_processed]
        rw [if_pos hnil]
      rw [heq]
      refine ⟨hfile, fun x => ?_⟩
      have hall := List.filter_eq_nil_iff.mp hnil
      simp only [SyncState.idsOf, List.foldr, List.append_nil]
      constructor
      · exact fun h => Or.inr h
      · rintro (h | h)
        · have := hall x h
          simpa using this
        · exact h
    · have heq : SyncState.applyOp (s, file) (SyncState.Op.batch gids) =
          (⟨(gids.filter (fun gid => gid ∉ s.processed_ids)).foldl
              (fun a g => g :: a) s.processed_ids, s.last_pruned,
            s.total_processed + (gids.filter (fun gid => gid ∉ s.processed_ids)).length⟩,
            Option.some (SyncState._save_state
              ⟨(gids.filter (fun gid => gid ∉ s.processed_ids)).foldl
                  (fun a g => g :: a) s.processed_ids, s.last_pruned,
                s.total_processed +
                  (gids.filter (fun gid => gid ∉ s.processed_ids)).length⟩)) := by
        simp only [SyncState.applyOp, SyncState.mark_batch_processed]
        rw [if_neg hnil]
      rw [heq]
      refine ⟨fun x => mem_load_save _ x, fun x => ?_⟩
      rw [mem_foldl_cons]
      simp only [SyncState.idsOf, List.foldr, List.append_nil, List.mem_filter]
      constructor
      · rintro (⟨hg, _⟩ | h)
        · exact Or.inl hg
        · exact Or.inr h
      · rintro (hg | h)
        · by_cases hm : x ∈ s.processed_ids
          · exact Or.inr hm
          · exact Or.inl ⟨hg, by simpa using hm⟩
        · exact Or.inr h

/-- A sequence of marking operations: final in-memory membership is the
initial membership plus all marked ids, and the final backing file
reflects the final in-memory set. -/
theorem applyOps_mem (ops : List SyncState.Op) :
    ∀ (s : SyncState.St) (file : SyncState.FileStore),
      (∀ x, x ∈ (SyncState._load_state file).processed_ids ↔
        x ∈ s.processed_ids) →
      ∀ x,
        (x ∈ (SyncState.applyOps (s, file) ops).1.processed_ids ↔
          x ∈ SyncState.idsOf ops ∨ x ∈ s.processed_ids) ∧
        (x ∈ (SyncState._load_state
            (SyncState.applyOps (s, file) ops).2).processed_ids ↔
          x ∈ (SyncState.applyOps (s, file) ops).1.processed_ids) := by
  induction ops with
  | nil =>
    intro s file hfile x
    refine ⟨?_, hfile x⟩
    simp [SyncState.applyOps, SyncState.idsOf]
  | cons op rest ih =>
    intro s file hfile x
    have hstep := applyOp_mem op s file hfile
    have hops : SyncState.applyOps (s, file) (op :: rest) =
        SyncState.applyOps ((SyncState.applyOp (s, file) op).1,
          (SyncState.applyOp (s, file) op).2) rest := by
      simp [SyncState.applyOps]
    rw [hops]
    have hrec := ih (SyncState.applyOp (s, file) op).1
      (SyncState.applyOp (s, file) op).2 hstep.1 x
    refine ⟨?_, hrec.2⟩
    rw [hrec.1, hstep.2 x]
    have hids : x ∈ SyncState.idsOf (op :: rest) ↔
        x ∈ SyncState.idsOf [op] ∨ x ∈ SyncState.idsOf rest := by
      cases op with
      | one gid => simp [SyncState.idsOf]
      | batch gids => simp [SyncState.idsOf]
    rw [hids]
    tauto

/-- Claim C5: round-trip persistence of Sync State — starting from an
empty or absent state file, after any sequence of individual or batch
markings, a freshly constructed tracker pointed at the resulting file
reports `is_processed` true for exactly the marked ids (and the live
tracker agrees); a tracker initialized on an empty or absent file
reports zero processed ids. -/
theorem C5_sync_state_roundtrip :
    ∀ (ops : List SyncState.Op) (x : String),
      (SyncState._load_state Option.none).processed_ids = [] ∧
      (SyncState.is_processed
          (SyncState._load_state
            (SyncState.applyOps
              (SyncState._load_state Option.none, Option.none) ops).2) x = true ↔
        x ∈ SyncState.idsOf ops) ∧
      (SyncState.is_processed
          (SyncState.applyOps
            (SyncState._load_state Option.none, Option.none) ops).1 x = true ↔
        x ∈ SyncState.idsOf ops) := by
  intro ops x
  have hfile : ∀ y, y ∈ (SyncState._load_state Option.none).processed_ids ↔
      y ∈ (SyncState._load_state Option.none).processed_ids := fun y => Iff.rfl
  have h := applyOps_mem ops (SyncState._load_state Option.none) Option.none hfile x
  have hempty : (SyncState._load_state Option.none).processed_ids = [] := rfl
  refine ⟨hempty, ?_, ?_⟩
  · rw [SyncState.is_processed, decide_eq_true_eq, h.2, h.1, hempty]
    simp
  · rw [SyncState.is_processed, decide_eq_true_eq, h.1, hempty]
    simp

/-- Characterisation of the weekly-validation loop: starting from any
accumulator it adds the count of invalid documents, the count of valid
documents, and the missing entries of the uncaptured valid documents in
order. -/
theorem validateFold_spec (files : List String) (g : List WeeklyValidation.VDoc) :
    ∀ acc : Nat × Nat × List WeeklyValidation.MissingEntry,
      g.foldl (WeeklyValidation.validateStep files) acc =
        (acc.1 + (g.filter fun d => !(d.valid_meeting.getD true)).length,
         acc.2.1 + (g.filter fun d => d.valid_meeting.getD true).length,
         acc.2.2 ++ ((g.filter fun d => d.valid_meeting.getD true &&
             !(WeeklyValidation.meeting_in_obsidian d.id files)).map
           fun d => ⟨d.id, d.title.getD "Untitled", d.created_at.getD "unknown"⟩)) := by
  induction g with
  | nil => intro acc; simp
  | cons d rest ih =>
    rintro ⟨inv, val, mis⟩
    rw [List.foldl_cons, ih]
    by_cases hv : d.valid_meeting.getD true = false
    · have hstep : WeeklyValidation.validateStep files (inv, val, mis) d =
          (inv + 1, val, mis) := by
        simp [WeeklyValidation.validateStep, hv]
      rw [hstep]
      simp [List.filter_cons, hv, Prod.ext_iff]
      omega
    · have hv2 : d.valid_meeting.getD true = true := by
        cases hvm : d.valid_meeting.getD true
        · exact absurd hvm hv
        · rfl
      by_cases hob : WeeklyValidation.meeting_in_obsidian d.id files = true
      · have hstep : WeeklyValidation.validateStep files (inv, val, mis) d =
            (inv, val + 1, mis) := by
          simp [WeeklyValidation.validateStep, hv, hob]
        rw [hstep]
        simp [List.filter_cons, hv2, hob, Prod.ext_iff]
        omega
      · have hob2 : WeeklyValidation.meeting_in_obsidian d.id files = false := by
          cases hoo : WeeklyValidation.meeting_in_obsidian d.id files
          · rfl
          · exact absurd hoo hob
        have hstep : WeeklyValidation.validateStep files (inv, val, mis) d =
            (inv, val + 1,
              mis ++ [⟨d.id, d.title.getD "Untitled", d.created_at.getD "unknown"⟩]) := by
          simp [WeeklyValidation.validateStep, hv, hob2]
        rw [hstep]
        simp [List.filter_cons, hv2, hob2, Prod.ext_iff]
        omega

/-- The valid documents split into the captured and the uncaptured. -/
theorem valid_split (files : List String) (g : List WeeklyValidation.VDoc) :
    (g.filter fun d => d.valid_meeting.getD true).length =
      (g.filter fun d => d.valid_meeting.getD true &&
        WeeklyValidation.meeting_in_obsidian d.id files).length +
      (g.filter fun d => d.valid_meeting.getD true &&
        !(WeeklyValidation.meeting_in_obsidian d.id files)).length := by
  induction g with
  | nil => simp
  | cons d rest ih =>
    by_cases hv : d.valid_meeting.getD true = true
    · by_cases hob : WeeklyValidation.meeting_in_obsidian d.id files = true
      · simp [List.filter_cons, hv, hob]
        omega
      · have hob2 : WeeklyValidation.meeting_in_obsidian d.id files = false := by
          cases hoo : WeeklyValidation.meeting_in_obsidian d.id files
          · rfl
          · exact absurd hoo hob
        simp [List.filter_cons, hv, hob2]
        omega
    · have hv2 : d.valid_meeting.getD true = false := by
        cases hvm : d.valid_meeting.getD true
        · rfl
        · exact absurd hvm hv
      simp [List.filter_cons, hv2]
      omega

/-- Claim C6: weekly validation coverage — with `v` the number of
in-window documents whose `valid_meeting` is not false and `c` the
number of those whose id appears in some candidate vault file, the
reported `coverage_percentage` equals `c / v × 100` when `v > 0` and
remains 0 when `v = 0` (no division performed); invalid documents are
excluded from the denominator and the missing list and are counted in
`invalid_meetings_skipped`; `missing_meetings` lists exactly the
`v − c` uncaptured valid documents. -/
theorem C6_weekly_validation_coverage (g : List WeeklyValidation.VDoc)
    (files : List String) :
    (WeeklyValidation.validate_week g files).invalid_meetings_skipped =
      (g.filter fun d => !(d.valid_meeting.getD true)).length ∧
    (WeeklyValidation.validate_week g files).captured_in_obsidian =
      (g.filter fun d => d.valid_meeting.getD true &&
        WeeklyValidation.meeting_in_obsidian d.id files).length ∧
    (WeeklyValidation.validate_week g files).missing_meetings =
      ((g.filter fun d => d.valid_meeting.getD true &&
          !(WeeklyValidation.meeting_in_obsidian d.id files)).map
        fun d => ⟨d.id, d.title.getD "Untitled", d.created_at.getD "unknown"⟩) ∧
    (WeeklyValidation.validate_week g files).missing_meetings.length =
      (g.filter fun d => d.valid_meeting.getD true).length -
        (g.filter fun d => d.valid_meeting.getD true &&
          WeeklyValidation.meeting_in_obsidian d.id files).length ∧
    (WeeklyValidation.validate_week g files).coverage_percentage =
      (if 0 < (g.filter fun d => d.valid_meeting.getD true).length then
        (((g.filter fun d => d.valid_meeting.getD true &&
            WeeklyValidation.meeting_in_obsidian d.id files).length : ℚ) /
          ((g.filter fun d => d.valid_meeting.getD true).length : ℚ)) * 100
      else 0) := by
  have hsplit := valid_split files g
  unfold WeeklyValidation.validate_week
  rw [validateFold_spec files g (0, 0, [])]
  simp only [Nat.zero_add, List.nil_append, List.length_map]
  set v := (g.filter fun d => d.valid_meeting.getD true).length with hvdef
  set c := (g.filter fun d => d.valid_meeting.getD true &&
    WeeklyValidation.meeting_in_obsidian d.id files).length with hcdef
  set m := (g.filter fun d => d.valid_meeting.getD true &&
    !(WeeklyValidation.meeting_in_obsidian d.id files)).length with hmdef
  have hcap : v - m = c := by omega
  refine ⟨trivial, hcap, trivial, by omega, ?_⟩
  rw [hcap]

/-- Claim C10: in the weekly validator's trailing-window filter, a
fetched document with an absent (or empty) `created_at` is silently
excluded from the validation set — in particular it can contribute to no
stat of the validation, whose input is exactly the filtered list — while
a document whose `created_at` is present but unparseable is included;
additionally, every missing-list entry originates from a document of the
filtered list. -/
theorem C10_window_filter (parse : String → Option Int) (cutoff : Int)
    (docs : List WeeklyValidation.VDoc) (files : List String)
    (d : WeeklyValidation.VDoc) :
    (d.created_at = Option.none →
      d ∉ WeeklyValidation.fetch_granola_meetings (Option.some docs) parse cutoff) ∧
    (d.created_at = Option.some "" →
      d ∉ WeeklyValidation.fetch_granola_meetings (Option.some docs) parse cutoff) ∧
    (∀ s, d ∈ docs → d.created_at = Option.some s → s ≠ "" →
      parse s = Option.none →
      d ∈ WeeklyValidation.fetch_granola_meetings (Option.some docs) parse cutoff) ∧
    (∀ m ∈ (WeeklyValidation.validate_week
        (WeeklyValidation.fetch_granola_meetings (Option.some docs) parse cutoff)
        files).missing_meetings,
      ∃ d2 ∈ WeeklyValidation.fetch_granola_meetings (Option.some docs) parse cutoff,
        m.id = d2.id) := by
  refine ⟨?_, ?_, ?_, ?_⟩
  · intro hna hmem
    rw [WeeklyValidation.fetch_granola_meetings, List.mem_filter] at hmem
    rw [WeeklyValidation.keepDoc, hna] at hmem
    exact absurd hmem.2 (by simp)
  · intro hemp hmem
    rw [WeeklyValidation.fetch_granola_meetings, List.mem_filter] at hmem
    rw [WeeklyValidation.keepDoc, hemp] at hmem
    simp at hmem
  · intro s hd hs hne hparse
    rw [WeeklyValidation.fetch_granola_meetings, List.mem_filter]
    refine ⟨hd, ?_⟩
    rw [WeeklyValidation.keepDoc, hs]
    simp [hne, hparse]
  · intro m hm
    set l := WeeklyValidation.fetch_granola_meetings (Option.some docs) parse cutoff
    rw [WeeklyValidation.validate_week] at hm
    rw [validateFold_spec files l (0, 0, [])] at hm
    simp only [List.nil_append] at hm
    rw [List.mem_map] at hm
    obtain ⟨d2, hd2, hmd⟩ := hm
    exact ⟨d2, List.mem_of_mem_filter hd2, by rw [← hmd]⟩

/-- Witness for C10: with a parse oracle that always fails and three
concrete documents — `created_at` absent, unparseable, and empty — the
absent and empty ones are dropped and the unparseable one is kept. -/
theorem C10_window_filter_witness :
    (⟨"a", Option.none, Option.none, Option.none⟩ : WeeklyValidation.VDoc) ∉
      WeeklyValidation.fetch_granola_meetings
        (Option.some [⟨"a", Option.none, Option.none, Option.none⟩,
          ⟨"b", Option.none, Option.some "not-a-date", Option.none⟩,
          ⟨"c", Option.none, Option.some "", Option.none⟩])
        (fun _ => Option.none) 0 ∧
    (⟨"c", Option.none, Option.some "", Option.none⟩ : WeeklyValidation.VDoc) ∉
      WeeklyValidation.fetch_granola_meetings
        (Option.some [⟨"a", Option.none, Option.none, Option.none⟩,
          ⟨"b", Option.none, Option.some "not-a-date", Option.none⟩,
          ⟨"c", Option.none, Option.some "", Option.none⟩])
        (fun _ => Option.none) 0 ∧
    (⟨"b", Option.none, Option.some "not-a-date", Option.none⟩ :
        WeeklyValidation.VDoc) ∈
      WeeklyValidation.fetch_granola_meetings
        (Option.some [⟨"a", Option.none, Option.none, Option.none⟩,
          ⟨"b", Option.none, Option.some "not-a-date", Option.none⟩,
          ⟨"c", Option.none, Option.some "", Option.none⟩])
        (fun _ => Option.none) 0 := by
  refine ⟨?_, ?_, ?_⟩
  · exact (C10_window_filter (fun _ => Option.none) 0 _ [] _).1 rfl
  · exact (C10_window_filter (fun _ => Option.none) 0 _ [] _).2.1 rfl
  · exact (C10_window_filter (fun _ => Option.none) 0 _ [] _).2.2.1
      "not-a-date" (by simp) rfl (by decide) rfl

/-- One iteration of the `process_new_meetings` loop, under a writer
that succeeds on the document: the note is appended and the id marked
if and only if the id was not already processed and `valid_meeting` is
not false; otherwise the document is counted as skipped and neither the
notes, the sync state nor the state file change. -/
theorem processDoc_spec (writer : Fetcher.Doc → Option String)
    (llm : Option LLMParser) (state : SyncState.St) (file : SyncState.FileStore)
    (r : Processor.Results) (d : Fetcher.Doc) (hw : (writer d).isSome = true) :
    (((∃ fp, writer d = Option.some fp ∧
        (Processor.processDoc writer llm (state, file, r) d).2.2.notes_created =
          r.notes_created ++ [fp]) ∧
      SyncState.is_processed
        (Processor.processDoc writer llm (state, file, r) d).1 d.id = true) ↔
      (SyncState.is_processed state d.id = false ∧
        d.valid_meeting.getD true = true)) ∧
    ((SyncState.is_processed state d.id = true ∨
        d.valid_meeting.getD true = false) →
      ((Processor.processDoc writer llm (state, file, r) d).2.2.skipped =
          r.skipped + 1 ∧
        (Processor.processDoc writer llm (state, file, r) d).2.2.notes_created =
          r.notes_created ∧
        (Processor.processDoc writer llm (state, file, r) d).1 = state ∧
        (Processor.processDoc writer llm (state, file, r) d).2.1 = file)) := by
  by_cases h1 : SyncState.is_processed state d.id = true
  · have heq : Processor.processDoc writer llm (state, file, r) d =
        (state, file, { r with skipped := r.skipped + 1 }) := by
      simp [Processor.processDoc, h1]
    rw [heq]
    refine ⟨⟨?_, ?_⟩, fun _ => ⟨rfl, rfl, rfl, rfl⟩⟩
    · rintro ⟨⟨fp, _, hnotes⟩, _⟩
      exact absurd hnotes (by simp)
    · rintro ⟨hfalse, _⟩
      rw [h1] at hfalse
      cases hfalse
  · have h1f : SyncState.is_processed state d.id = false := by
      cases hh : SyncState.is_processed state d.id
      · rfl
      · exact absurd hh h1
    by_cases h2 : d.valid_meeting.getD true = false
    · have heq : Processor.processDoc writer llm (state, file, r) d =
          (state, file, { r with skipped := r.skipped + 1 }) := by
        simp [Processor.processDoc, h1f, h2]
      rw [heq]
      refine ⟨⟨?_, ?_⟩, fun _ => ⟨rfl, rfl, rfl, rfl⟩⟩
      · rintro ⟨_, hmark⟩
        rw [hmark] at h1f
        cases h1f
      · rintro ⟨_, hvt⟩
        rw [h2] at hvt
        cases hvt
    · have h2t : d.valid_meeting.getD true = true := by
        cases hvm : d.valid_meeting.getD true
        · exact absurd hvm h2
        · rfl
      obtain ⟨fp, hfp⟩ := Option.isSome_iff_exists.mp hw
      have hmem : d.id ∉ state.processed_ids := by
        simpa [SyncState.is_processed] using h1f
      have heq : Processor.processDoc writer llm (state, file, r) d =
          (⟨d.id :: state.processed_ids, state.last_pruned,
              state.total_processed + 1⟩,
            Option.some (SyncState._save_state
              ⟨d.id :: state.processed_ids, state.last_pruned,
                state.total_processed + 1⟩),
            (if (llm.isSome : Bool) then
              { r with
                processed := r.processed + 1
                notes_created := r.notes_created ++ [fp]
                llm_enrichments := r.llm_enrichments + 1 }
            else
              { r with
                processed := r.processed + 1
                notes_created := r.notes_created ++ [fp] })) := by
        simp only [Processor.processDoc, h1f, h2t, hfp]
        simp [SyncState.mark_processed, hmem]
      rw [heq]
      refine ⟨⟨fun _ => ⟨h1f, h2t⟩, fun _ => ⟨⟨fp, hfp, ?_⟩, ?_⟩⟩, ?_⟩
      · cases llm with
        | none => simp
        | some p => simp
      · simp [SyncState.is_processed]
      · rintro (hh | hh)
        · rw [hh] at h1f
          cases h1f
        · rw [hh] at h2t
          cases h2t

/-- Claim C3: in a `process_new_meetings` run over fetched documents
(processed in fetch order) whose note writes succeed, for the `i`-th
document a vault note is written (appended to `notes_created`) and its
id is marked processed in Sync State if and only if the id is not
already marked processed at its turn and `valid_meeting` is not false
(absent counts as valid); a document failing either condition is
counted as skipped, gets no note written, and leaves the sync state and
its file unchanged. -/
theorem C3_run_writes_and_marks_iff_new_and_valid
    (docs : List Fetcher.Doc) (writer : Fetcher.Doc → Option String)
    (llm : Option LLMParser) (state : SyncState.St) (file : SyncState.FileStore)
    (now : String) (hw : ∀ d ∈ docs, (writer d).isSome = true)
    (i : Nat) (hi : i < docs.length) :
    Processor.process_new_meetings (Option.some docs) writer llm state file now =
      docs.foldl (Processor.processDoc writer llm)
        (state, file, { Processor.Results.init now with fetched := docs.length }) ∧
    (((∃ fp, writer docs[i] = Option.some fp ∧
        ((docs.take (i + 1)).foldl (Processor.processDoc writer llm)
          (state, file,
            { Processor.Results.init now with
              fetched := docs.length })).2.2.notes_created =
          ((docs.take i).foldl (Processor.processDoc writer llm)
            (state, file,
              { Processor.Results.init now with
                fetched := docs.length })).2.2.notes_created ++ [fp]) ∧
      SyncState.is_processed
        ((docs.take (i + 1)).foldl (Processor.processDoc writer llm)
          (state, file,
            { Processor.Results.init now with fetched := docs.length })).1
        docs[i].id = true) ↔
      (SyncState.is_processed
          ((docs.take i).foldl (Processor.processDoc writer llm)
            (state, file,
              { Processor.Results.init now with fetched := docs.length })).1
          docs[i].id = false ∧
        docs[i].valid_meeting.getD true = true)) ∧
    ((SyncState.is_processed
        ((docs.take i).foldl (Processor.processDoc writer llm)
          (state, file,
            { Processor.Results.init now with fetched := docs.length })).1
        docs[i].id = true ∨
      docs[i].valid_meeting.getD true = false) →
      (((docs.take (i + 1)).foldl (Processor.processDoc writer llm)
          (state, file,
            { Processor.Results.init now with
              fetched := docs.length })).2.2.skipped =
        ((docs.take i).foldl (Processor.processDoc writer llm)
          (state, file,
            { Processor.Results.init now with
              fetched := docs.length })).2.2.skipped + 1 ∧
      ((docs.take (i + 1)).foldl (Processor.processDoc writer llm)
          (state, file,
            { Processor.Results.init now with
              fetched := docs.length })).2.2.notes_created =
        ((docs.take i).foldl (Processor.processDoc writer llm)
          (state, file,
            { Processor.Results.init now with
              fetched := docs.length })).2.2.notes_created ∧
      ((docs.take (i + 1)).foldl (Processor.processDoc writer llm)
          (state, file,
            { Processor.Results.init now with fetched := docs.length })).1 =
        ((docs.take i).foldl (Processor.processDoc writer llm)
          (state, file,
            { Processor.Results.init now with fetched := docs.length })).1 ∧
      ((docs.take (i + 1)).foldl (Processor.processDoc writer llm)
          (state, file,
            { Processor.Results.init now with fetched := docs.length })).2.1 =
        ((docs.take i).foldl (Processor.processDoc writer llm)
          (state, file,
            { Processor.Results.init now with fetched := docs.length })).2.1)) := by
  refine ⟨rfl, ?_⟩
  have htake : docs.take (i + 1) = docs.take i ++ [docs[i]] := by
    rw [List.take_succ, List.getElem?_eq_getElem hi]
    rfl
  rw [htake, List.foldl_concat]
  set before := (docs.take i).foldl (Processor.processDoc writer llm)
    (state, file, { Processor.Results.init now with fetched := docs.length })
    with hbefore
  have hspec := processDoc_spec writer llm before.1 before.2.1 before.2.2 docs[i]
    (hw docs[i] (List.getElem_mem hi))
  simpa using hspec

/-- Witness for C3: a one-document run with a fresh sync state, a valid
document and a succeeding writer marks the document's id processed
after its iteration. -/
theorem C3_run_writes_and_marks_witness :
    SyncState.is_processed
      (([(⟨"doc-1", "T", Option.none⟩ : Fetcher.Doc)].take (0 + 1)).foldl
        (Processor.processDoc (fun d => Option.some ("p-" ++ d.id)) Option.none)
        ((⟨[], Option.none, 0⟩ : SyncState.St),
          (Option.none : SyncState.FileStore),
          { Processor.Results.init "t" with
            fetched := [(⟨"doc-1", "T", Option.none⟩ : Fetcher.Doc)].length }) :
        SyncState.St × SyncState.FileStore × Processor.Results).1
      "doc-1" = true := by
  have h := C3_run_writes_and_marks_iff_new_and_valid
    [⟨"doc-1", "T", Option.none⟩] (fun d => Option.some ("p-" ++ d.id))
    Option.none ⟨[], Option.none, 0⟩ Option.none "t"
    (fun d _ => rfl) 0 (by decide)
  exact (h.2.1.mpr ⟨rfl, rfl⟩).2

/-- Claim C7 counterexample: a text leaf whose `marks` array lists
`link` before `bold` is rendered with the marks applied in array order
— link innermost, bold outermost — and not in the claimed fixed order
with bold innermost. -/
theorem C7_counterexample_mark_order :
    ProseMirror.extractText false
      [ProseMirror.PMNode.mk (Option.some "text") (Option.some "x")
        [⟨Option.some "link", Option.some "h"⟩, ⟨Option.some "bold", Option.none⟩]
        Option.none Option.none []] = "**[x](h)**" ∧
    ProseMirror.extractText false
      [ProseMirror.PMNode.mk (Option.some "text") (Option.some "x")
        [⟨Option.some "link", Option.some "h"⟩, ⟨Option.some "bold", Option.none⟩]
        Option.none Option.none []] ≠ "[**x**](h)" := by
  have h1 : ProseMirror.extractText false
      [ProseMirror.PMNode.mk (Option.some "text") (Option.some "x")
        [⟨Option.some "link", Option.some "h"⟩, ⟨Option.some "bold", Option.none⟩]
        Option.none Option.none []] = "**[x](h)**" := by
    simp [ProseMirror.extractText, ProseMirror.applyMark]
  refine ⟨h1, ?_⟩
  rw [h1]
  decide

/-- Claim C7 as amended: text extraction applies a text leaf's marks in
the order they appear in the node's `marks` array, the first-listed
mark wrapping innermost; `bold`, `italic`, `code`, `strike`, `link`
wrap as claimed; in particular, when the marks array itself lists them
in the order bold, italic, code, strike, link, the nesting has bold
innermost and link outermost. -/
theorem C7_marks_wrap_in_array_order :
    (∀ (preserve : Bool) (s : String) (marks : List ProseMirror.PMMark),
      ProseMirror.extractText preserve
        [ProseMirror.PMNode.mk (Option.some "text") (Option.some s) marks
          Option.none Option.none []] =
        marks.foldl ProseMirror.applyMark s) ∧
    (∀ t : String,
      ProseMirror.applyMark t ⟨Option.some "bold", Option.none⟩ =
        "**" ++ t ++ "**" ∧
      ProseMirror.applyMark t ⟨Option.some "italic", Option.none⟩ =
        "*" ++ t ++ "*" ∧
      ProseMirror.applyMark t ⟨Option.some "code", Option.none⟩ =
        "`" ++ t ++ "`" ∧
      ProseMirror.applyMark t ⟨Option.some "strike", Option.none⟩ =
        "~~" ++ t ++ "~~" ∧
      ∀ href : String,
        ProseMirror.applyMark t ⟨Option.some "link", Option.some href⟩ =
          "[" ++ t ++ "](" ++ href ++ ")") ∧
    (∀ (s : String) (marks : List ProseMirror.PMMark) (m : ProseMirror.PMMark),
      ProseMirror.extractText false
        [ProseMirror.PMNode.mk (Option.some "text") (Option.some s) (marks ++ [m])
          Option.none Option.none []] =
        ProseMirror.applyMark
          (ProseMirror.extractText false
            [ProseMirror.PMNode.mk (Option.some "text") (Option.some s) marks
              Option.none Option.none []]) m) ∧
    ProseMirror.extractText false
      [ProseMirror.PMNode.mk (Option.some "text") (Option.some "x")
        [⟨Option.some "bold", Option.none⟩, ⟨Option.some "italic", Option.none⟩,
          ⟨Option.some "code", Option.none⟩, ⟨Option.some "strike", Option.none⟩,
          ⟨Option.some "link", Option.some "h"⟩]
        Option.none Option.none []] = "[~~`***x***`~~](h)" := by
  have hbase : ∀ (preserve : Bool) (s : String) (marks : List ProseMirror.PMMark),
      ProseMirror.extractText preserve
        [ProseMirror.PMNode.mk (Option.some "text") (Option.some s) marks
          Option.none Option.none []] =
        marks.foldl ProseMirror.applyMark s := by
    intro preserve s marks
    simp [ProseMirror.extractText]
  refine ⟨hbase, ?_, ?_, ?_⟩
  · intro t
    exact ⟨rfl, rfl, rfl, rfl, fun href => rfl⟩
  · intro s marks m
    rw [hbase, hbase, List.foldl_concat]
  · rw [hbase]
    simp [ProseMirror.applyMark]

/-- The guard `containsTriple` is monotone under consing a character in front. -/
theorem containsTriple_cons (a : Char) (y : List Char)
    (h : ProseMirror.containsTriple y = true) :
    ProseMirror.containsTriple (a :: y) = true := by
  match y with
  | [] => simp [ProseMirror.containsTriple] at h
  | [c] => simp [ProseMirror.containsTriple] at h
  | y1 :: y2 :: yr =>
    by_cases hc : a = '\n' ∧ y1 = '\n' ∧ y2 = '\n'
    · simp [ProseMirror.containsTriple, hc]
    · simpa [ProseMirror.containsTriple, hc] using h

/-- If three consecutive newlines occur as an infix, the loop guard of
the collapse pass sees them. -/
theorem infix_triple_containsTriple (x : List Char)
    (hinf : ['\n', '\n', '\n'] <:+: x) :
    ProseMirror.containsTriple x = true := by
  obtain ⟨s, t, rfl⟩ := hinf
  induction s with
  | nil => simp [ProseMirror.containsTriple]
  | cons a s ih =>
    rw [List.cons_append, List.cons_append]
    exact containsTriple_cons a _ (by simpa using ih)

/-- The collapse loop terminates only when no triple newline remains. -/
theorem collapseNewlines_no_triple (l : List Char) :
    ProseMirror.containsTriple (ProseMirror.collapseNewlines l) = false := by
  induction l using ProseMirror.collapseNewlines.induct with
  | case1 l h ih =>
    rw [ProseMirror.collapseNewlines, dif_pos h]
    exact ih
  | case2 l h =>
    rw [ProseMirror.collapseNewlines, dif_neg h]
    simpa using h

/-- Stripping returns an infix of its input. -/
theorem stripChars_isInfix_self (l : List Char) : ProseMirror.stripChars l <:+: l := by
  have hm : l.dropWhile ProseMirror.isPySpace <:+ l :=
    List.dropWhile_suffix ProseMirror.isPySpace
  have hw : (l.dropWhile ProseMirror.isPySpace).reverse.dropWhile
      ProseMirror.isPySpace <:+ (l.dropWhile ProseMirror.isPySpace).reverse :=
    List.dropWhile_suffix ProseMirror.isPySpace
  have hp : ((l.dropWhile ProseMirror.isPySpace).reverse.dropWhile
      ProseMirror.isPySpace).reverse <+: l.dropWhile ProseMirror.isPySpace := by
    have h2 := List.reverse_prefix.mpr hw
    rwa [List.reverse_reverse] at h2
  exact hp.isInfix.trans hm.isInfix

/-- The first element surviving `dropWhile p` does not satisfy `p`. -/
theorem head?_dropWhile_not (p : Char → Bool) (l : List Char) :
    ((l.dropWhile p).head?.all fun c => !p c) = true := by
  induction l with
  | nil => simp
  | cons a t ih =>
    by_cases h : p a = true
    · simpa [List.dropWhile_cons, h] using ih
    · simp [List.dropWhile_cons, h]

/-- The stripped list does not end in whitespace. -/
theorem stripChars_getLast_all (l : List Char) :
    ((ProseMirror.stripChars l).getLast?.all
      fun c => !ProseMirror.isPySpace c) = true := by
  rw [ProseMirror.stripChars, List.getLast?_reverse]
  exact head?_dropWhile_not ProseMirror.isPySpace _

/-- The stripped list does not start with whitespace. -/
theorem stripChars_head_all (l : List Char) :
    ((ProseMirror.stripChars l).head?.all
      fun c => !ProseMirror.isPySpace c) = true := by
  rw [ProseMirror.stripChars, List.head?_reverse]
  cases hw : (l.dropWhile ProseMirror.isPySpace).reverse.dropWhile
      ProseMirror.isPySpace with
  | nil => simp
  | cons z zs =>
    have hsuf : (l.dropWhile ProseMirror.isPySpace).reverse.dropWhile
        ProseMirror.isPySpace <:+ (l.dropWhile ProseMirror.isPySpace).reverse :=
      List.dropWhile_suffix ProseMirror.isPySpace
    obtain ⟨pre, hpre⟩ := hsuf
    rw [hw] at hpre
    obtain ⟨w, hzw⟩ : ∃ w, (z :: zs).getLast? = some w := by
      cases hzz : (z :: zs).getLast? with
      | none =>
        rw [List.getLast?_eq_none_iff] at hzz
        cases hzz
      | some w => exact ⟨w, rfl⟩
    have hgl : (l.dropWhile ProseMirror.isPySpace).reverse.getLast? =
        some w := by
      rw [← hpre, List.getLast?_append, hzw]
      rfl
    have hmh := head?_dropWhile_not ProseMirror.isPySpace l
    rw [List.getLast?_reverse] at hgl
    rw [hzw]
    rw [hgl] at hmh
    exact hmh

/-- Claim C8: for every input document, the string returned by the
converter's `convert` contains no run of three or more consecutive
newline characters (no occurrence of three consecutive newlines as an
infix) and has no leading or trailing whitespace. -/
theorem C8_convert_collapsed_and_stripped (d : ProseMirror.PMNode) :
    ¬ (['\n', '\n', '\n'] <:+: (ProseMirror.convert d).data) ∧
    ((ProseMirror.convert d).data.head?.all
      fun c => !ProseMirror.isPySpace c) = true ∧
    ((ProseMirror.convert d).data.getLast?.all
      fun c => !ProseMirror.isPySpace c) = true := by
  rcases d with ⟨ty, txt, marks, level, language, content⟩
  have hdata : (ProseMirror.convert
      (ProseMirror.PMNode.mk ty txt marks level language content)).data =
      ProseMirror.stripChars (ProseMirror.collapseNewlines
        (String.intercalate "\n"
          (ProseMirror.convertNodes ⟨[], 0⟩ content).output_lines).data) := rfl
  rw [hdata]
  refine ⟨?_, stripChars_head_all _, stripChars_getLast_all _⟩
  intro hinf
  have h1 := infix_triple_containsTriple _ (hinf.trans (stripChars_isInfix_self _))
  rw [collapseNewlines_no_triple] at h1
  cases h1
